import Mathlib

/-!
Verification of the PDB reader (`volatility/framework/symbols/windows/mspdb.py`).

The Python methods of `PdbReader` are shallowly embedded as executable Lean
functions.  Machine integers are modelled as `Nat`/`Int` (Python integers are
unbounded); byte streams are modelled either as `List Nat` of byte values or as
read oracles `Nat → Nat`; Python exceptions (`IndexError`, `KeyError`,
`ZeroDivisionError`, `ValueError`, `TypeError`) are modelled by `Option`
results, with `none` standing for a raised exception.  Python's negative list
indexing (`l[-1]` is the last element) is modelled by `pyGet`.
-/

/-- Python sequence indexing `l[i]` with an `Int` index: a negative index wraps
around from the end of the list (`l[-1]` is the last element); an index that is
still out of range raises `IndexError`, modelled as `none`. -/
def pyGet {α : Type} (l : List α) (i : Int) : Option α :=
  if i < 0 then
    let j : Int := (l.length : Int) + i
    if j < 0 then none else l.get? j.toNat
  else l.get? i.toNat

/-- Python dict assignment `d[k] = v` on an association list: replace the
binding in place when the key is present, append otherwise. -/
def dictInsert {K V : Type} [DecidableEq K] : List (K × V) → K → V → List (K × V)
  | [], k, v => [(k, v)]
  | (k0, v0) :: rest, k, v =>
    if k0 = k then (k0, v) :: rest else (k0, v0) :: dictInsert rest k v

/-- Python dict lookup `d[k]` on an association list; `none` models `KeyError`. -/
def dictLookup {K V : Type} [DecidableEq K] : List (K × V) → K → Option V
  | [], _ => none
  | (k0, v0) :: rest, k => if k0 = k then some v0 else dictLookup rest k

/-- Number of bindings an association list holds for the key `k`. -/
def countKey {K V : Type} [DecidableEq K] : List (K × V) → K → Nat
  | [], _ => 0
  | (k0, _) :: rest, k => (if k0 = k then 1 else 0) + countKey rest k

/-- Lexicographic `<` on pairs, as Python compares the `(from_rva, to_rva)`
tuples stored in `omap_mapping`. -/
def pairLt (x e : Nat × Nat) : Prop :=
  x.1 < e.1 ∨ (x.1 = e.1 ∧ x.2 < e.2)

instance (x e : Nat × Nat) : Decidable (pairLt x e) := by
  unfold pairLt; infer_instance

/-- `bisect.bisect` (right bisection): the first index whose element is
strictly greater than `x`.  Python implements this by binary search; on the
sorted lists it is used with this equals the linear scan below, which we take
as the definition. -/
def bisectRight (a : List (Nat × Nat)) (x : Nat × Nat) : Nat :=
  match a with
  | [] => 0
  | e :: rest => if pairLt x e then 0 else bisectRight rest x + 1

/-- `PdbReader.omap_lookup` (mspdb.py:383-391).  `omap` is the list of
`(from_rva, to_rva)` pairs in `self.omap_mapping`; `none` models an
`IndexError` escaping the method.  The intermediate index becomes `pos - 1`
(possibly `-1`, which Python wraps to the last entry) exactly when the entry
at the bisection point does not start at `address`. -/
def omap_lookup (omap : List (Nat × Nat)) (address : Nat) : Option Int :=
  let pos := bisectRight omap (address, 0)
  match omap.get? pos with
  | none => none
  | some e0 =>
    match pyGet omap (if e0.1 ≠ address then (pos : Int) - 1 else (pos : Int)) with
    | none => none
    | some e =>
      if e.2 = 0 then some 0
      else some ((e.2 : Int) + ((address : Int) - (e.1 : Int)))

/-- `PdbReader.consume_padding` (mspdb.py:643-648).  `read1 offset` is the
byte returned by `self.context.layers[layer_name].read(offset, 1)[0]`. -/
def consume_padding (read1 : Nat → Nat) (offset : Nat) : Nat :=
  let val := read1 offset
  if val &&& 0xf0 = 0 then 0 else val &&& 0x0f

/-- The address computation of `PdbReader.read_symbol_stream` for one v2/v3
public symbol (mspdb.py:450-467): `sections` holds the parsed section headers'
`VirtualAddress` fields, `address = self.sections[segment - 1].VirtualAddress +
offset`, and when `self.omap_mapping` is non-empty the raw address is passed
through `omap_lookup`.  `none` models an uncaught `IndexError`. -/
def symbol_address (sections : List Nat) (omap : List (Nat × Nat))
    (segment offset : Nat) : Option Int :=
  match pyGet sections ((segment : Int) - 1) with
  | none => none
  | some va =>
    let address := va + offset
    if omap.isEmpty then some (address : Int)
    else omap_lookup omap address

/-! ## C1: padding bytes inside a FIELDLIST -/

/-- C1 (counterexample): the byte `0x15` has high nibble `0x1 ≠ 0xF`, so the
claim predicts `consume_padding` returns `0` padding, but the code tests only
`val & 0xf0` being non-zero and returns `0x15 & 0x0f = 5`. -/
theorem consume_padding_c1_counterexample :
    consume_padding (fun _ => 0x15) 0 = 5 ∧ (0x15 : Nat) >>> 4 ≠ 0xF ∧ (5 : Nat) ≠ 0 := by
  decide

set_option maxRecDepth 4000 in
/-- C1 (amended): for every byte read at a sub-record boundary,
`consume_padding` returns `(byte & 0x0F)` bytes of padding exactly when the
byte's high nibble is non-zero, and returns `0` padding exactly when the high
nibble is zero (the source tests `val & 0xf0`, not equality with `0xF0`). -/
theorem consume_padding_c1_amended (read1 : Nat → Nat) (offset : Nat)
    (h : read1 offset < 256) :
    (read1 offset >>> 4 = 0 → consume_padding read1 offset = 0) ∧
    (read1 offset >>> 4 ≠ 0 → consume_padding read1 offset = read1 offset &&& 0x0f) := by
  have H : ∀ b : Nat, b < 256 →
      (b >>> 4 = 0 → (if b &&& 0xf0 = 0 then 0 else b &&& 0x0f) = 0) ∧
      (b >>> 4 ≠ 0 → (if b &&& 0xf0 = 0 then 0 else b &&& 0x0f) = b &&& 0x0f) := by
    decide
  exact H (read1 offset) h

/-- Witness for `consume_padding_c1_amended` at the padding byte `0xF3`. -/
theorem consume_padding_c1_witness : consume_padding (fun _ => 0xF3) 0 = 3 := by
  have h := (consume_padding_c1_amended (fun _ => 0xF3) 0 (by decide)).2 (by decide)
  simpa using h

/-! ## C2 / C3: OMAP lookup -/

/-- C2 (counterexample): for the sorted one-entry mapping `[(10, 100)]` and
query `20`, the claim predicts the entry `(10, 100)` is selected and
`100 + (20 - 10) = 110` is returned, but `bisect` returns `1` (the list
length) and `self.omap_mapping[1]` raises `IndexError` (modelled `none`). -/
theorem omap_lookup_c2_counterexample :
    omap_lookup [(10, 100)] 20 = none ∧ some (110 : Int) ≠ (none : Option Int) := by
  decide

/-- C3 (code bug): with sections `[VirtualAddress = 0x1000]` and OMAP mapping
`[(0x1020, 0x5020), (0x1040, 0)]`, a v3 public symbol with `segment = 1`,
`offset = 0x25` is emitted with address `0x5025` as the claim states, but the
symbol whose raw address is `0x1045` (`offset = 0x45`) makes `omap_lookup`
raise `IndexError` (`bisect` returns the list length) instead of returning the
OMAP-hole address `0`. -/
theorem symbol_stream_c3_bug :
    symbol_address [0x1000] [(0x1020, 0x5020), (0x1040, 0)] 1 0x25 = some 0x5025 ∧
    symbol_address [0x1000] [(0x1020, 0x5020), (0x1040, 0)] 1 0x45 = none := by
  decide

/-! ## C8: segment 0 wraps to the last section -/

/-- The last element of a list sits at index `length - 1`. -/
theorem listGetPredLast {α : Type} : ∀ l : List α, l.get? (l.length - 1) = l.getLast?
  | [] => rfl
  | [_] => rfl
  | a :: b :: t => by
    rw [List.getLast?_cons_cons]
    have ih := listGetPredLast (b :: t)
    simp only [List.length_cons, Nat.add_sub_cancel] at ih ⊢
    simpa using ih

theorem pyGet_neg_one {α : Type} (l : List α) (h : l ≠ []) : pyGet l (-1) = l.getLast? := by
  unfold pyGet
  have hlen : 1 ≤ l.length := List.length_pos.mpr h
  have h1 : (-1 : Int) < 0 := by decide
  rw [if_pos h1]
  have h2 : ¬ ((l.length : Int) + (-1) < 0) := by omega
  rw [if_neg h2]
  have h3 : ((l.length : Int) + (-1)).toNat = l.length - 1 := by omega
  rw [h3, listGetPredLast]

/-- C8: for a v2/v3 public symbol record with `segment = 0` and a non-empty
sections list, `sections[segment - 1]` is Python indexing at `-1`, which wraps
to the last parsed section header, so the raw address is the last section's
`VirtualAddress` plus the record's `offset` (no failure occurs). -/
theorem read_symbol_stream_c8_segment_zero (sections : List Nat) (offset : Nat)
    (h : sections ≠ []) :
    ∃ va, sections.getLast? = some va ∧
      symbol_address sections [] 0 offset = some ((va : Int) + (offset : Int)) := by
  have hne : sections.getLast? ≠ none := by
    cases sections with
    | nil => exact absurd rfl h
    | cons a t => simp [List.getLast?]
  obtain ⟨va, hv⟩ := Option.ne_none_iff_exists'.mp hne
  refine ⟨va, hv, ?_⟩
  have hneg : (((0 : Nat) : Int) - 1) = -1 := by decide
  rw [symbol_address, hneg, pyGet_neg_one sections h, hv]
  simp [List.isEmpty]

/-- Witness for `read_symbol_stream_c8_segment_zero` on two sections with
virtual addresses `0x1000` and `0x2000` and symbol offset `5`. -/
theorem read_symbol_stream_c8_witness :
    ([0x1000, 0x2000] : List Nat) ≠ [] ∧
      ∃ va, ([0x1000, 0x2000] : List Nat).getLast? = some va ∧
        symbol_address [0x1000, 0x2000] [] 0 5 = some ((va : Int) + (5 : Int)) :=
  ⟨by decide, read_symbol_stream_c8_segment_zero [0x1000, 0x2000] 5 (by decide)⟩


theorem bisect_append (x : Nat × Nat) :
    ∀ (front rest : List (Nat × Nat)), (∀ e ∈ front, ¬ pairLt x e) →
      bisectRight (front ++ rest) x = front.length + bisectRight rest x
  | [], rest, _ => by simp [bisectRight]
  | f :: front, rest, h => by
    have hf : ¬ pairLt x f := h f (by simp)
    simp only [List.cons_append, bisectRight, if_neg hf, List.length_cons, List.append_eq]
    rw [bisect_append x front rest (fun e he => h e (by simp [he]))]
    omega

theorem listGet_append_right {α : Type} :
    ∀ (l1 l2 : List α) (n : Nat), (l1 ++ l2).get? (l1.length + n) = l2.get? n
  | [], _, _ => by simp
  | a :: l1, l2, n => by
    simp only [List.cons_append, List.length_cons]
    have harr : l1.length + 1 + n = (l1.length + n) + 1 := by omega
    rw [harr]
    exact listGet_append_right l1 l2 n

theorem pyGet_ofNat {α : Type} (l : List α) (n : Nat) : pyGet l ((n : Nat) : Int) = l.get? n := by
  unfold pyGet
  rw [if_neg (by omega)]
  have h : ((n : Int)).toNat = n := by omega
  rw [h]

/-- C2 (amended): for a non-empty OMAP mapping sorted strictly ascending by
`from_rva` and a query address that is at least the first entry's `from_rva`
and strictly below the last entry's `from_rva`, `omap_lookup` selects the
entry `sel` with the greatest `from_rva ≤ query` and returns `0` if its
`to_rva` is `0`, else `to_rva + (query - from_rva)`.  (The sorted mapping and
the selected greatest entry are presented as the decomposition
`front ++ sel :: post`: every earlier entry is below `sel.from_rva`, every
later one is above the query, and `post ≠ []` says the query is strictly below
the last `from_rva`.  Outside this range the source either wraps to the last
entry through Python's negative indexing or raises `IndexError`, as shown by
the counterexample.) -/
theorem omap_lookup_c2_amended (front : List (Nat × Nat)) (sel : Nat × Nat)
    (post : List (Nat × Nat)) (q : Nat)
    (hfront : ∀ e ∈ front, e.1 < sel.1)
    (hsel : sel.1 ≤ q)
    (hpost : ∀ e ∈ post, q < e.1)
    (hne : post ≠ []) :
    (∀ e ∈ front ++ sel :: post, e.1 ≤ q → e.1 ≤ sel.1) ∧
    omap_lookup (front ++ sel :: post) q =
      some (if sel.2 = 0 then 0 else (sel.2 : Int) + ((q : Int) - (sel.1 : Int))) := by
  constructor
  · intro e he hq
    rcases List.mem_append.mp he with hm | hm
    · exact le_of_lt (hfront e hm)
    · rcases List.mem_cons.mp hm with rfl | hm
      · exact le_refl _
      · exact absurd hq (by have := hpost e hm; omega)
  · have hfrontskip : ∀ e ∈ front, ¬ pairLt (q, 0) e := by
      intro e he
      have := hfront e he
      unfold pairLt
      push_neg
      constructor
      · omega
      · intro h1; omega
    by_cases hstop : pairLt (q, 0) sel
    · have hq1 : sel.1 = q ∧ 0 < sel.2 := by
        rcases hstop with h1 | ⟨h1, h2⟩
        · omega
        · exact ⟨h1.symm, h2⟩
      have hk : bisectRight (front ++ sel :: post) (q, 0) = front.length := by
        rw [bisect_append (q, 0) front (sel :: post) hfrontskip]
        simp [bisectRight, if_pos hstop]
      have hget : (front ++ sel :: post).get? front.length = some sel := by
        have := listGet_append_right front (sel :: post) 0
        simpa using this
      simp only [omap_lookup, hk, hget]
      rw [if_neg (by simp [hq1.1] : ¬ sel.1 ≠ q)]
      rw [pyGet_ofNat, hget]
      have h2 : ¬ sel.2 = 0 := by omega
      simp [h2]
    · obtain ⟨p, ps, rfl⟩ := List.exists_cons_of_ne_nil hne
      have hp : q < p.1 := hpost p (by simp)
      have hplt : pairLt (q, 0) p := Or.inl hp
      have hk : bisectRight (front ++ sel :: p :: ps) (q, 0) = front.length + 1 := by
        rw [bisect_append (q, 0) front (sel :: p :: ps) hfrontskip]
        simp [bisectRight, if_neg hstop, if_pos hplt]
      have hget : (front ++ sel :: p :: ps).get? (front.length + 1) = some p := by
        have := listGet_append_right front (sel :: p :: ps) 1
        simpa using this
      have hget2 : (front ++ sel :: p :: ps).get? front.length = some sel := by
        have := listGet_append_right front (sel :: p :: ps) 0
        simpa using this
      simp only [omap_lookup, hk, hget]
      have hpq : p.1 ≠ q := by omega
      rw [if_pos hpq]
      have hidx : ((front.length + 1 : Nat) : Int) - 1 = ((front.length : Nat) : Int) := by
        push_cast; ring
      rw [hidx, pyGet_ofNat, hget2]
      by_cases h0 : sel.2 = 0 <;> simp [h0]

/-- Witness for `omap_lookup_c2_amended`: in the sorted mapping
`[(10, 100), (20, 0), (30, 300)]` the greatest entry at or below query `25`
is the hole `(20, 0)`, so the lookup returns `0`. -/
theorem omap_lookup_c2_witness :
    omap_lookup [(10, 100), (20, 0), (30, 300)] 25 = some 0 := by
  have h := (omap_lookup_c2_amended [(10, 100)] (20, 0) [(30, 300)] 25
    (by decide) (by decide) (by decide) (by decide)).2
  simpa using h

/-! ## Type records: the `primatives`/`indirections` tables, the parsed type
table `self.types`, and the payload values manipulated by `process_types`,
`get_size_from_index`, `get_type_from_index` and `replace_forward_references`. -/

/-- One primitive base-type entry of the module-level `primatives` dict
(mspdb.py:14-198): `(name, {endian, kind, signed, size})`. -/
structure BaseInfo where
  endian : String
  kind : String
  signed : Bool
  size : Nat
  deriving DecidableEq, Repr

/-- The module-level `primatives` dict (mspdb.py:14-198), keyed by the low
byte of a primitive type index; `none` models `KeyError`. -/
def primatives (index : Nat) : Option (String × BaseInfo) :=
  if index = 0x03 then some ("void", ⟨"little", "void", true, 4⟩)
  else if index = 0x10 then some ("char", ⟨"little", "char", true, 1⟩)
  else if index = 0x20 then some ("unsigned char", ⟨"little", "char", false, 1⟩)
  else if index = 0x68 then some ("int8", ⟨"little", "int", true, 1⟩)
  else if index = 0x69 then some ("uint8", ⟨"little", "int", false, 1⟩)
  else if index = 0x70 then some ("char", ⟨"little", "char", true, 1⟩)
  else if index = 0x71 then some ("wchar", ⟨"little", "int", true, 2⟩)
  else if index = 0x11 then some ("short", ⟨"little", "int", true, 2⟩)
  else if index = 0x21 then some ("unsigned short", ⟨"little", "int", false, 2⟩)
  else if index = 0x72 then some ("short", ⟨"little", "int", true, 2⟩)
  else if index = 0x73 then some ("unsigned short", ⟨"little", "int", false, 2⟩)
  else if index = 0x12 then some ("long", ⟨"little", "int", true, 4⟩)
  else if index = 0x22 then some ("unsigned long", ⟨"little", "int", false, 4⟩)
  else if index = 0x74 then some ("int", ⟨"little", "int", true, 4⟩)
  else if index = 0x75 then some ("unsigned int", ⟨"little", "int", false, 4⟩)
  else if index = 0x13 then some ("long long", ⟨"little", "int", true, 8⟩)
  else if index = 0x23 then some ("unsigned long long", ⟨"little", "int", false, 8⟩)
  else if index = 0x76 then some ("long long", ⟨"little", "int", true, 8⟩)
  else if index = 0x77 then some ("unsigned long long", ⟨"little", "int", false, 8⟩)
  else if index = 0x14 then some ("int128", ⟨"little", "int", true, 16⟩)
  else if index = 0x24 then some ("uint128", ⟨"little", "int", false, 16⟩)
  else if index = 0x78 then some ("int128", ⟨"little", "int", true, 16⟩)
  else if index = 0x79 then some ("uint128", ⟨"little", "int", false, 16⟩)
  else if index = 0x46 then some ("f16", ⟨"little", "float", true, 2⟩)
  else if index = 0x40 then some ("f32", ⟨"little", "float", true, 4⟩)
  else if index = 0x45 then some ("f32pp", ⟨"little", "float", true, 4⟩)
  else if index = 0x44 then some ("f48", ⟨"little", "float", true, 6⟩)
  else if index = 0x41 then some ("double", ⟨"little", "float", true, 8⟩)
  else if index = 0x42 then some ("f80", ⟨"little", "float", true, 10⟩)
  else if index = 0x43 then some ("f128", ⟨"little", "float", true, 16⟩)
  else none

/-- The module-level `indirections` dict (mspdb.py:200-219), keyed by the
`0xf00` bits of a primitive type index; `none` models `KeyError`. -/
def indirections (index : Nat) : Option (String × BaseInfo) :=
  if index = 0x100 then some ("pointer16", ⟨"little", "int", false, 2⟩)
  else if index = 0x400 then some ("pointer32", ⟨"little", "int", false, 4⟩)
  else if index = 0x600 then some ("pointer", ⟨"little", "int", false, 8⟩)
  else none

/-- The `LEAF_TYPE` record kinds of the CodeView grammar that `PdbReader`
dispatches on. -/
inductive Leaf where
  | LF_CLASS | LF_CLASS_ST | LF_STRUCTURE | LF_STRUCTURE_ST | LF_INTERFACE
  | LF_UNION | LF_ENUM | LF_MODIFIER | LF_ARRAY | LF_ARRAY_ST | LF_STRIDED_ARRAY
  | LF_BITFIELD | LF_POINTER | LF_PROCEDURE | LF_MEMBER | LF_MEMBER_ST
  | LF_FIELDLIST | LF_ENUMERATE | LF_ARGLIST
  deriving DecidableEq, Repr

/-- The dynamically typed Python values manipulated by
`replace_forward_references` and returned by `get_type_from_index`: `None`,
integers, strings, dicts, lists, and `ForwardArrayCount(size, element_type)`
placeholders (mspdb.py:222-227). -/
inductive Value where
  | vnone : Value
  | vint : Int → Value
  | vstr : String → Value
  | vdict : List (String × Value) → Value
  | vlist : List Value → Value
  | fac : Int → Nat → Value

/-- The attributes of a parsed type-record object that the reader accesses
(`value.properties.forward_reference`, `value.size`, `value.subtype_index`,
`value.element_type`, `value.underlying_type`, `value.field_type`,
`value.fields`, `value.length`, `value.position`); `raw` is the record's raw
payload as returned for `LF_FIELDLIST` records. -/
structure TypePayload where
  forward_reference : Bool
  size : Int
  subtype_index : Nat
  element_type : Nat
  underlying_type : Nat
  field_type : Nat
  fields : Nat
  bit_length : Nat
  bit_position : Nat
  raw : Value

/-- One `(leaf_type, name, value)` triple of `self.types` as appended by
`read_tpi_stream` (mspdb.py:326). -/
structure TypeEntry where
  leaf : Leaf
  name : Option String
  payload : TypePayload

/-- The aggregate leaves of `get_size_from_index` (mspdb.py:541-544):
`LF_UNION, LF_CLASS, LF_CLASS_ST, LF_STRUCTURE, LF_STRUCTURE_ST,
LF_INTERFACE`. -/
def sizeAggLeaves : List Leaf :=
  [.LF_UNION, .LF_CLASS, .LF_CLASS_ST, .LF_STRUCTURE, .LF_STRUCTURE_ST, .LF_INTERFACE]

/-- The array leaves `LF_ARRAY, LF_ARRAY_ST, LF_STRIDED_ARRAY`. -/
def arrayLeaves : List Leaf := [.LF_ARRAY, .LF_ARRAY_ST, .LF_STRIDED_ARRAY]

/-- Python truthiness of an optional string (`if name:`): `None` and the
empty string are falsy. -/
def truthyName : Option String → Bool
  | none => false
  | some s => s ≠ ""

/-- `PdbReader.get_size_from_index` (mspdb.py:531-561).  The recursion through
`subtype_index`/`field_type`/`underlying_type` is bounded by `fuel`
(Python would hit its recursion limit on a cyclic table); `none` models a
raised `KeyError`/`IndexError`/`ValueError`.  A forward-referenced aggregate
falls through the whole dispatch to the trailing `return 1`. -/
def get_size_from_index (types : List TypeEntry) : Nat → Nat → Option Int
  | 0, _ => none
  | fuel + 1, index =>
    if index < 0x1000 then
      if index &&& 0xf00 ≠ 0 then
        match indirections (index &&& 0xf00) with
        | none => none
        | some nb => some (nb.2.size : Int)
      else
        match primatives (index &&& 0xff) with
        | none => none
        | some nb => some (nb.2.size : Int)
    else
      match types.get? (index - 0x1000) with
      | none => none
      | some e =>
        if e.leaf ∈ sizeAggLeaves then
          if e.payload.forward_reference then some 1 else some e.payload.size
        else if e.leaf ∈ arrayLeaves then some e.payload.size
        else if e.leaf = .LF_MODIFIER ∨ e.leaf = .LF_ENUM then
          get_size_from_index types fuel e.payload.subtype_index
        else if e.leaf = .LF_MEMBER then
          get_size_from_index types fuel e.payload.field_type
        else if e.leaf = .LF_BITFIELD then
          get_size_from_index types fuel e.payload.underlying_type
        else if e.leaf = .LF_POINTER then some e.payload.size
        else if e.leaf = .LF_PROCEDURE then some (-1)
        else none

/-- The final line of the `ForwardArrayCount` branch of
`replace_forward_references`: `types.size // self.get_size_from_index(et)`.
Python `//` is floor division (`Int.fdiv`); division by zero raises
`ZeroDivisionError` (`none`). -/
def facDiv (types : List TypeEntry) (fuel : Nat) (fsize : Int) (et : Nat) : Option Value :=
  match get_size_from_index types fuel et with
  | none => none
  | some s => if s = 0 then none else some (.vint (Int.fdiv fsize s))

mutual

/-- `PdbReader.replace_forward_references` (mspdb.py:689-708): recursively
walks dicts and lists; a `ForwardArrayCount(size, element_type)` whose element
type is a record reference strictly above `0x1000` with a truthy name is
rebound through `type_references` before the element size divides the total
size.  A missing `type_references` key is a `KeyError` (`none`). -/
def replace_forward_references (types : List TypeEntry) (tr : List (String × Nat))
    (fuel : Nat) : Value → Option Value
  | .vdict kvs => (replaceFRPairs types tr fuel kvs).map Value.vdict
  | .vlist vs => (replaceFRList types tr fuel vs).map Value.vlist
  | .fac fsize element_type =>
    if 0x1000 < element_type then
      match types.get? (element_type - 0x1000) with
      | none => none
      | some e =>
        if truthyName e.name then
          match dictLookup tr (e.name.getD "") with
          | none => none
          | some idx => facDiv types fuel fsize (idx + 0x1000)
        else facDiv types fuel fsize element_type
    else facDiv types fuel fsize element_type
  | v => some v

/-- The dict branch of `replace_forward_references`: every value of the dict
is replaced in place (`types[k] = self.replace_forward_references(v, ...)`). -/
def replaceFRPairs (types : List TypeEntry) (tr : List (String × Nat))
    (fuel : Nat) : List (String × Value) → Option (List (String × Value))
  | [] => some []
  | (k, v) :: rest =>
    match replace_forward_references types tr fuel v, replaceFRPairs types tr fuel rest with
    | some w, some rest2 => some ((k, w) :: rest2)
    | _, _ => none

/-- The list branch of `replace_forward_references`. -/
def replaceFRList (types : List TypeEntry) (tr : List (String × Nat))
    (fuel : Nat) : List Value → Option (List Value)
  | [] => some []
  | v :: rest =>
    match replace_forward_references types tr fuel v, replaceFRList types tr fuel rest with
    | some w, some rest2 => some (w :: rest2)
    | _, _ => none

end

/-- Helper building a `TypePayload` from its ten attributes. -/
def mkPayload (fwd : Bool) (sz : Int) (sub et und ft fl bl bp : Nat) (raw : Value) : TypePayload :=
  ⟨fwd, sz, sub, et, und, ft, fl, bl, bp, raw⟩

/-- Payload of an aggregate (struct/union) record: only `forward_reference`,
`size` and `fields` matter. -/
def aggPayload (fwd : Bool) (sz : Int) (fieldsIdx : Nat) : TypePayload :=
  mkPayload fwd sz 0 0 0 0 fieldsIdx 0 0 (.vlist [])

/-! ## C4: forward array counts -/

/-- C4 (counterexample): with `types[0]` a forward `LF_STRUCTURE` named
`FOO` and `types[1]` its non-forward definition of size `8`, and
`type_references = {FOO: 1}`, the payload `ForwardArrayCount(40, 0x1000)` has
`element_type_ref = 0x1000 ≥ 0x1000` and a referenced record whose name is in
`type_references`, so the claim predicts rebinding to `0x1001` and
`count = 40 / 8 = 5`; but the code tests `element_type > 0x1000` strictly, so
no rebinding happens, the forward record's fall-through size `1` is used, and
the emitted count is `40`. -/
theorem replace_forward_references_c4_counterexample :
    replace_forward_references
      [⟨.LF_STRUCTURE, some "FOO", aggPayload true 0 0⟩,
       ⟨.LF_STRUCTURE, some "FOO", aggPayload false 8 0⟩]
      [("FOO", 1)] 1 (.fac 40 0x1000) = some (.vint 40) ∧
    (some (Value.vint 40) : Option Value) ≠ some (Value.vint 5) := by
  constructor
  · rfl
  · intro h
    injection h with h2
    injection h2 with h3
    exact absurd h3 (by decide)

/-- C4 (amended): in pass 2, for every array payload carrying
`ForwardArrayCount(total_size, element_type_ref)`: when
`element_type_ref > 0x1000` (strictly) and the referenced record's name `n`
is non-empty and present in `type_references`, the element type is rebound to
`type_references[n] + 0x1000` and the payload is replaced by
`count = total_size // size_of(resolved_element_type)`. -/
theorem replace_forward_references_c4_amended (types : List TypeEntry)
    (tr : List (String × Nat)) (fuel : Nat) (total : Int) (et : Nat)
    (e : TypeEntry) (n : String) (j : Nat) (s : Int)
    (h1 : 0x1000 < et)
    (h2 : types.get? (et - 0x1000) = some e)
    (h3 : e.name = some n)
    (h4 : n ≠ "")
    (h5 : dictLookup tr n = some j)
    (h6 : get_size_from_index types fuel (j + 0x1000) = some s)
    (h7 : s ≠ 0) :
    replace_forward_references types tr fuel (.fac total et) =
      some (.vint (Int.fdiv total s)) := by
  rw [replace_forward_references, if_pos h1, h2]
  simp only [h3, truthyName, Option.getD_some]
  rw [if_pos (by simp [h4])]
  rw [h5]
  simp [facDiv, h6, h7]

/-- Witness for `replace_forward_references_c4_amended`: the spec's own
scenario, an array of total size `40` whose element is a forward-referenced
struct `FOO` later resolved (via `type_references`) to the definition of
size `8`, yields count `5`. -/
theorem replace_forward_references_c4_witness :
    replace_forward_references
      [⟨.LF_ARRAY, none, aggPayload false 40 0⟩,
       ⟨.LF_STRUCTURE, some "FOO", aggPayload true 0 0⟩,
       ⟨.LF_STRUCTURE, some "FOO", aggPayload false 8 0⟩]
      [("FOO", 2)] 1 (.fac 40 0x1001) = some (.vint 5) := by
  have h := replace_forward_references_c4_amended
    [⟨.LF_ARRAY, none, aggPayload false 40 0⟩,
     ⟨.LF_STRUCTURE, some "FOO", aggPayload true 0 0⟩,
     ⟨.LF_STRUCTURE, some "FOO", aggPayload false 8 0⟩]
    [("FOO", 2)] 1 40 0x1001
    ⟨.LF_STRUCTURE, some "FOO", aggPayload true 0 0⟩ "FOO" 2 8
    (by decide) rfl rfl (by decide) rfl rfl (by decide)
  rw [show (5 : Int) = Int.fdiv 40 8 from by decide]
  exact h

/-! ## C5: TPI stream exhaustion -/

/-- The record-consumption loop of `PdbReader.read_tpi_stream`
(mspdb.py:311-332), abstracted over the decoding of individual records:
`r offset` is the `u16` record length read at `offset`
(`module.object(type_name = "unsigned short", offset = offset)`, of size
`length_len = 2`), `L` is the TPI stream length reported by the MSF layer.
While `L - offset > 0` the loop reads a length and advances by
`2 + length`; on exit, `L - offset != 0` raises
`ValueError("Type values did not fill the TPI stream correctly")`, modelled
as `none`.  On success the list of record lengths read is returned. -/
def read_tpi_loop (r : Nat → Nat) (L : Nat) (offset : Nat) : Option (List Nat) :=
  if h : offset < L then
    (read_tpi_loop r L (offset + 2 + r offset)).map (fun ls => r offset :: ls)
  else if offset = L then some [] else none
termination_by L - offset
decreasing_by omega

/-- The sequence of record lengths the loop of `read_tpi_stream` reads
greedily starting at `offset`. -/
def tpiLengths (r : Nat → Nat) (L : Nat) (offset : Nat) : List Nat :=
  if h : offset < L then r offset :: tpiLengths r L (offset + 2 + r offset) else []
termination_by L - offset
decreasing_by omega

theorem tpi_exhaustion_aux (r : Nat → Nat) (L : Nat) : ∀ offset : Nat,
    (read_tpi_loop r L offset).isSome = true ↔
      offset + ((tpiLengths r L offset).map (fun l => 2 + l)).sum = L := by
  intro offset
  rw [read_tpi_loop, tpiLengths]
  by_cases h : offset < L
  · rw [dif_pos h, dif_pos h]
    have ih := tpi_exhaustion_aux r L (offset + 2 + r offset)
    simp only [List.map_cons, List.sum_cons]
    cases hro : read_tpi_loop r L (offset + 2 + r offset) <;>
      simp [hro] at ih ⊢ <;> omega
  · rw [dif_neg h, dif_neg h]
    by_cases he : offset = L
    · rw [if_pos he]
      simpa using he
    · rw [if_neg he]
      simp only [List.map_nil, List.sum_nil, Nat.add_zero]
      simp [he]
termination_by offset => L - offset
decreasing_by omega

/-- C5: starting at `header_size`, `read_tpi_stream` repeatedly reads a u16
length and consumes exactly that many record bytes, and the loop completes
without the fatal residual error if and only if `header_size` plus the sum of
`(2 + record_length)` over all records read equals the stream length exactly. -/
theorem read_tpi_stream_c5_exhaustion (r : Nat → Nat) (L header_size : Nat) :
    (read_tpi_loop r L header_size).isSome = true ↔
      header_size + ((tpiLengths r L header_size).map (fun l => 2 + l)).sum = L :=
  tpi_exhaustion_aux r L header_size

/-! ## C7: extended numeric values -/

/-- A one-byte read from a stream of byte values. -/
def readU8 (s : List Nat) (off : Nat) : Option Nat := s.get? off

/-- A little-endian `u16` read (`unsigned short`), as performed by
`module.object`. -/
def readU16 (s : List Nat) (off : Nat) : Option Nat :=
  match s.get? off, s.get? (off + 1) with
  | some b0, some b1 => some (b0 + 256 * b1)
  | _, _ => none

/-- A little-endian `u32` read (`unsigned long`). -/
def readU32 (s : List Nat) (off : Nat) : Option Nat :=
  match s.get? off, s.get? (off + 1), s.get? (off + 2), s.get? (off + 3) with
  | some b0, some b1, some b2, some b3 =>
    some (b0 + 256 * b1 + 65536 * b2 + 16777216 * b3)
  | _, _, _, _ => none

/-- Two's-complement reinterpretation of a `w`-bit unsigned value. -/
def toSigned (w : Nat) (v : Nat) : Int :=
  if v < 2 ^ (w - 1) then (v : Int) else (v : Int) - 2 ^ w

/-- A signed byte read (`char`). -/
def readI8 (s : List Nat) (off : Nat) : Option Int := (readU8 s off).map (toSigned 8)

/-- A little-endian `i16` read (`short`). -/
def readI16 (s : List Nat) (off : Nat) : Option Int := (readU16 s off).map (toSigned 16)

/-- A little-endian `i32` read (`long`). -/
def readI32 (s : List Nat) (off : Nat) : Option Int := (readU32 s off).map (toSigned 32)

/-- Modelled from the spec: the numeric value of the `LEAF_TYPE` enumeration
constant `LF_CHAR` (the enumeration itself lives in the framework's symbol
table for PDB files, not in this module); §4.2 pins `LF_CHAR = 0x8000`. -/
def LF_CHAR : Nat := 0x8000

/-- Modelled from the spec: the `LEAF_TYPE` constant following `LF_CHAR`
(standard CodeView numbering). -/
def LF_SHORT : Nat := 0x8001

/-- Modelled from the spec: the `LEAF_TYPE` constant `LF_USHORT`. -/
def LF_USHORT : Nat := 0x8002

/-- Modelled from the spec: the `LEAF_TYPE` constant `LF_LONG`. -/
def LF_LONG : Nat := 0x8003

/-- Modelled from the spec: the `LEAF_TYPE` constant `LF_ULONG`. -/
def LF_ULONG : Nat := 0x8004

/-- `PdbReader.determine_extended_value` (mspdb.py:650-678), restricted to the
`(value, excess)` pair it computes (the trailing name parse is out of scope
here).  `valueOffset` is `value.vol.offset`, the offset of the 16-bit value
slot; the extended value, if any, is read just after it
(`value.vol.offset + value.vol.data_format.length`), and `excess` is the byte
width of the re-read value.  An unexpected tag raises `TypeError` (`none`). -/
def determine_extended_value (s : List Nat) (valueOffset : Nat) : Option (Int × Nat) :=
  match readU16 s valueOffset with
  | none => none
  | some v =>
    if v ≥ LF_CHAR then
      let off := valueOffset + 2
      if v = LF_CHAR then (readI8 s off).map (fun x => (x, 1))
      else if v = LF_SHORT then (readI16 s off).map (fun x => (x, 2))
      else if v = LF_USHORT then (readU16 s off).map (fun x => ((x : Int), 2))
      else if v = LF_LONG then (readI32 s off).map (fun x => (x, 4))
      else if v = LF_ULONG then (readU32 s off).map (fun x => ((x : Int), 4))
      else none
    else some ((v : Int), 0)

/-- C7: `determine_extended_value` returns the inline 16-bit value `v` itself
with zero excess whenever `v < 0x8000`; when `v ≥ 0x8000` it treats `v` as a
leaf tag and reads the real value from the following bytes with width `i8`
for `LF_CHAR`, `i16` for `LF_SHORT`, `u16` for `LF_USHORT`, `i32` for
`LF_LONG`, `u32` for `LF_ULONG`, reporting `1`/`2`/`2`/`4`/`4` excess bytes
respectively; every other tag value is a decode error. -/
theorem determine_extended_value_c7_cases (s : List Nat) (off v : Nat)
    (h : readU16 s off = some v) :
    (v < 0x8000 → determine_extended_value s off = some ((v : Int), 0)) ∧
    (v = 0x8000 → determine_extended_value s off = (readI8 s (off + 2)).map (fun x => (x, 1))) ∧
    (v = 0x8001 → determine_extended_value s off = (readI16 s (off + 2)).map (fun x => (x, 2))) ∧
    (v = 0x8002 → determine_extended_value s off =
      (readU16 s (off + 2)).map (fun x => ((x : Int), 2))) ∧
    (v = 0x8003 → determine_extended_value s off = (readI32 s (off + 2)).map (fun x => (x, 4))) ∧
    (v = 0x8004 → determine_extended_value s off =
      (readU32 s (off + 2)).map (fun x => ((x : Int), 4))) ∧
    (0x8004 < v → determine_extended_value s off = none) := by
  refine ⟨?_, ?_, ?_, ?_, ?_, ?_, ?_⟩
  case _ => intro hv
            simp [determine_extended_value, h, LF_CHAR, hv]
  case _ => intro hv
            simp [determine_extended_value, h, LF_CHAR, hv]
  case _ => intro hv
            simp [determine_extended_value, h, LF_CHAR, LF_SHORT, hv]
  case _ => intro hv
            simp [determine_extended_value, h, LF_CHAR, LF_SHORT, LF_USHORT, hv]
  case _ => intro hv
            simp [determine_extended_value, h, LF_CHAR, LF_SHORT, LF_USHORT, LF_LONG, hv]
  case _ => intro hv
            simp [determine_extended_value, h, LF_CHAR, LF_SHORT, LF_USHORT, LF_LONG,
              LF_ULONG, hv]
  case _ => intro hv
            simp only [determine_extended_value, h]
            rw [if_pos (by unfold LF_CHAR; omega), if_neg (by unfold LF_CHAR; omega),
              if_neg (by unfold LF_SHORT; omega), if_neg (by unfold LF_USHORT; omega),
              if_neg (by unfold LF_LONG; omega), if_neg (by unfold LF_ULONG; omega)]

/-- Witness for `determine_extended_value_c7_cases`: bytes `01 80 FE FF`
hold the inline tag `LF_SHORT = 0x8001` followed by the `i16` value `-2`,
so the extended value is `-2` with `2` excess bytes. -/
theorem determine_extended_value_c7_witness :
    determine_extended_value [0x01, 0x80, 0xFE, 0xFF] 0 = some (-2, 2) := by
  have h := (determine_extended_value_c7_cases [0x01, 0x80, 0xFE, 0xFF] 0 0x8001 rfl).2.2.1 rfl
  rw [h]
  rfl

/-! ## C10: `get_type_from_index` on primitive indices -/

/-- Python value of an optional name as stored into a result dict. -/
def nameVal : Option String → Value
  | none => .vnone
  | some s => .vstr s

/-- `PdbReader.get_type_from_index` (mspdb.py:487-529).  `bases` is
`self.bases`, threaded through because the method registers every referenced
primitive (and pointer kind) in it; recursion through `LF_MODIFIER`,
arrays, bitfields and pointers is bounded by `fuel`; `none` models a raised
`KeyError`/`IndexError`/`ValueError`. -/
def get_type_from_index (types : List TypeEntry) :
    Nat → List (String × BaseInfo) → Nat → Option (List (String × BaseInfo) × Value)
  | 0, _, _ => none
  | fuel + 1, bases, index =>
    if index < 0x1000 then
      match primatives (index &&& 0xff) with
      | none => none
      | some (base_name, base) =>
        let bases2 := dictInsert bases base_name base
        let result := Value.vdict [("kind", .vstr "base"), ("name", .vstr base_name)]
        if index &&& 0xf00 ≠ 0 then
          match indirections (index &&& 0xf00) with
          | none => none
          | some (pointer_name, pointer_base) =>
            some (dictInsert bases2 pointer_name pointer_base,
              .vdict [("kind", .vstr pointer_name), ("subtype", result)])
        else some (bases2, result)
    else
      match types.get? (index - 0x1000) with
      | none => none
      | some e =>
        if e.leaf = .LF_MODIFIER then
          get_type_from_index types fuel bases e.payload.subtype_index
        else if e.leaf ∈ arrayLeaves then
          match get_type_from_index types fuel bases e.payload.element_type with
          | none => none
          | some (b2, sub) =>
            some (b2, .vdict [("count", .fac e.payload.size e.payload.element_type),
              ("kind", .vstr "array"), ("subtype", sub)])
        else if e.leaf = .LF_BITFIELD then
          match get_type_from_index types fuel bases e.payload.underlying_type with
          | none => none
          | some (b2, t) =>
            some (b2, .vdict [("kind", .vstr "bitfield"), ("type", t),
              ("bit_length", .vint (e.payload.bit_length : Int)),
              ("bit_position", .vint (e.payload.bit_position : Int))])
        else if e.leaf = .LF_POINTER then
          match get_type_from_index types fuel bases e.payload.subtype_index with
          | none => none
          | some (b2, sub) => some (b2, .vdict [("kind", .vstr "pointer"), ("subtype", sub)])
        else if e.leaf = .LF_PROCEDURE then some (bases, .vdict [("kind", .vstr "function")])
        else if e.leaf = .LF_UNION then
          some (bases, .vdict [("kind", .vstr "union"), ("name", nameVal e.name)])
        else if e.leaf = .LF_ENUM then
          some (bases, .vdict [("kind", .vstr "enum"), ("name", nameVal e.name)])
        else if e.leaf = .LF_FIELDLIST then some (bases, e.payload.raw)
        else if truthyName e.name then
          some (bases, .vdict [("kind", .vstr "struct"), ("name", nameVal e.name)])
        else none

/-- C10: for every index `i < 0x1000`, `get_type_from_index` succeeds
without error if and only if the low byte `i & 0xFF` is a key of the
primitive table and the indirection bits `i & 0xF00` are one of
`0, 0x100, 0x400, 0x600`; on success the referenced primitive (and the
pointer kind, when the indirection bits are non-zero) is registered in
`self.bases`. -/
theorem get_type_from_index_c10_primitive (types : List TypeEntry) (fuel : Nat)
    (bases : List (String × BaseInfo)) (i : Nat)
    (hi : i < 0x1000) (hf : 0 < fuel) :
    ((get_type_from_index types fuel bases i).isSome = true ↔
      ((primatives (i &&& 0xff)).isSome = true ∧
        (i &&& 0xf00 = 0 ∨ i &&& 0xf00 = 0x100 ∨ i &&& 0xf00 = 0x400 ∨ i &&& 0xf00 = 0x600))) ∧
    (∀ b2 v, get_type_from_index types fuel bases i = some (b2, v) →
      ∃ nm base, primatives (i &&& 0xff) = some (nm, base) ∧
        ((i &&& 0xf00 = 0 ∧ b2 = dictInsert bases nm base) ∨
         (∃ pn pb, indirections (i &&& 0xf00) = some (pn, pb) ∧
           b2 = dictInsert (dictInsert bases nm base) pn pb))) := by
  obtain ⟨fuel, rfl⟩ : ∃ f, fuel = f + 1 := ⟨fuel - 1, by omega⟩
  have hind : ∀ x : Nat, (indirections x).isSome = true ↔
      (x = 0x100 ∨ x = 0x400 ∨ x = 0x600) := by
    intro x
    unfold indirections
    split_ifs <;> simp_all
  constructor
  · rw [get_type_from_index, if_pos hi]
    cases hp : primatives (i &&& 0xff) with
    | none => simp
    | some nb =>
      obtain ⟨nm, base⟩ := nb
      by_cases hz : i &&& 0xf00 = 0
      · simp [hz]
      · cases hq : indirections (i &&& 0xf00) with
        | none =>
          have hni := hind (i &&& 0xf00)
          simp [hq] at hni
          simp [hz, hq]
          omega
        | some pb =>
          have hd := (hind (i &&& 0xf00)).mp (by rw [hq]; rfl)
          simp [hz, hq]
          omega
  · intro b2 v hec
    rw [get_type_from_index, if_pos hi] at hec
    cases hp : primatives (i &&& 0xff) with
    | none =>
      rw [hp] at hec
      exact absurd hec (by simp)
    | some nb =>
      obtain ⟨nm, base⟩ := nb
      rw [hp] at hec
      refine ⟨nm, base, rfl, ?_⟩
      by_cases hz : i &&& 0xf00 = 0
      · left
        refine ⟨hz, ?_⟩
        simp [hz] at hec
        exact hec.1.symm
      · right
        cases hq : indirections (i &&& 0xf00) with
        | none =>
          rw [hq] at hec
          simp [hz] at hec
        | some pb =>
          obtain ⟨pn, pbase⟩ := pb
          rw [hq] at hec
          simp [hz] at hec
          exact ⟨pn, pbase, rfl, hec.1.symm⟩

/-- Witness for `get_type_from_index_c10_primitive`: the primitive index
`0x603` (64-bit pointer to `void`) succeeds. -/
theorem get_type_from_index_c10_witness :
    (get_type_from_index [] 1 [] 0x603).isSome = true := by
  have h := (get_type_from_index_c10_primitive [] 1 [] 0x603 (by decide) (by decide)).1
  rw [h]
  constructor
  · rfl
  · right; right; right; rfl

/-! ## C9: `get_json` performs no further decoding once populated -/

/-- The mutable reader state that `get_json` serialises: `self.user_types`,
`self.enumerations`, `self.bases`, `self.symbols` (mspdb.py:236-241). -/
structure ReaderState where
  user_types : List (Option String × Value)
  enumerations : List (Option String × Value)
  bases : List (String × BaseInfo)
  symbols : List (String × Value)

/-- `PdbReader.read_necessary_streams` (mspdb.py:470-474): `readTpi` and
`readSym` stand for the stream-decoding methods `read_tpi_stream` and
`read_symbol_stream`, state transformers that may raise (`none`); each is run
only when its output dict is still empty. -/
def read_necessary_streams (readTpi readSym : ReaderState → Option ReaderState)
    (s : ReaderState) : Option ReaderState :=
  match (if s.user_types.isEmpty then readTpi s else some s) with
  | none => none
  | some s2 => if s2.symbols.isEmpty then readSym s2 else some s2

/-- The JSON document returned by `get_json` (mspdb.py:480-485):
`{user_types, enums, base_types, symbols}`. -/
def json_doc (s : ReaderState) :
    List (Option String × Value) × List (Option String × Value) ×
      List (String × BaseInfo) × List (String × Value) :=
  (s.user_types, s.enumerations, s.bases, s.symbols)

/-- `PdbReader.get_json` (mspdb.py:476-485): run `read_necessary_streams`,
then return the document (paired here with the resulting state). -/
def get_json (readTpi readSym : ReaderState → Option ReaderState) (s : ReaderState) :
    Option (ReaderState ×
      (List (Option String × Value) × List (Option String × Value) ×
        List (String × BaseInfo) × List (String × Value))) :=
  match read_necessary_streams readTpi readSym s with
  | none => none
  | some s2 => some (s2, json_doc s2)

/-- C9: once both `user_types` and `symbols` are non-empty, `get_json` leaves
the state untouched and returns the document of the current state, for any
stream-decoding functions whatsoever (so no further stream decoding can
influence it), and hence every subsequent `get_json` call returns a document
equal to the first. -/
theorem get_json_c9_idempotent (readTpi readSym : ReaderState → Option ReaderState)
    (s : ReaderState) (hu : s.user_types ≠ []) (hs : s.symbols ≠ []) :
    get_json readTpi readSym s = some (s, json_doc s) ∧
    (∀ readTpi2 readSym2 : ReaderState → Option ReaderState,
      get_json readTpi readSym s = get_json readTpi2 readSym2 s) := by
  have hu2 : s.user_types.isEmpty = false := by
    cases hul : s.user_types with
    | nil => exact absurd hul hu
    | cons a t => rfl
  have hs2 : s.symbols.isEmpty = false := by
    cases hsl : s.symbols with
    | nil => exact absurd hsl hs
    | cons a t => rfl
  have hr : ∀ rt rs : ReaderState → Option ReaderState,
      read_necessary_streams rt rs s = some s := by
    intro rt rs
    rw [read_necessary_streams, if_neg (by rw [hu2]; exact Bool.false_ne_true)]
    simp [hs2]
  constructor
  · rw [get_json, hr readTpi readSym]
  · intro rt2 rs2
    rw [get_json, hr readTpi readSym, get_json, hr rt2 rs2]

/-- Witness for `get_json_c9_idempotent` at a state with one user type and
one symbol. -/
theorem get_json_c9_witness :
    get_json (fun _ => none) (fun _ => none)
      ⟨[(some "T", .vint 0)], [], [], [("f", .vint 1)]⟩ =
      some (⟨[(some "T", .vint 0)], [], [], [("f", .vint 1)]⟩,
        ([(some "T", .vint 0)], [], [], [("f", .vint 1)])) := by
  have h := (get_json_c9_idempotent (fun _ => none) (fun _ => none)
    ⟨[(some "T", .vint 0)], [], [], [("f", .vint 1)]⟩
    (by simp) (by simp)).1
  exact h

/-! ## C6: forward-declared aggregates never win -/

/-- The struct-kind leaves of the first branch of `process_types`
(mspdb.py:402-405): `LF_CLASS, LF_CLASS_ST, LF_STRUCTURE, LF_STRUCTURE_ST,
LF_INTERFACE`. -/
def structLeaves : List Leaf :=
  [.LF_CLASS, .LF_CLASS_ST, .LF_STRUCTURE, .LF_STRUCTURE_ST, .LF_INTERFACE]

/-- A leaf that produces a `user_types` entry in `process_types`: a struct
kind or `LF_UNION`. -/
def aggLeafP (l : Leaf) : Prop := l ∈ structLeaves ∨ l = .LF_UNION

/-- The dict `{"kind": ..., "size": value.size, "fields":
convert_fields(value.fields - 0x1000)}` stored into `self.user_types`
(mspdb.py:407-419); `f` is the already-computed field conversion. -/
def builtAggValue (kind : String) (p : TypePayload) (f : Value) : Value :=
  .vdict [("kind", .vstr kind), ("size", .vint p.size), ("fields", f)]

/-- The `"kind"` string `process_types` stores for an aggregate leaf. -/
def aggKind (l : Leaf) : String := if l ∈ structLeaves then "struct" else "union"

/-- One iteration of the `process_types` loop (mspdb.py:400-427) on the
record `e`.  `convert` stands for the method `self.convert_fields` (it is
handed `value.fields - 0x1000` and may raise, `none`), and `procEnum` for the
enumeration-dict construction of the `LF_ENUM` branch (which reads
`value.subtype_index` and `value.fields` through `get_type_from_index` /
`get_size_from_index` and may raise); both are kept opaque because this
development only tracks which records produce `user_types` entries.
`ut`/`en` are `self.user_types` and `self.enumerations`. -/
def process_step (convert : Nat → Option Value) (procEnum : TypePayload → Option Value)
    (e : TypeEntry) (ut en : List (Option String × Value)) :
    Option (List (Option String × Value) × List (Option String × Value)) :=
  if e.leaf ∈ structLeaves then
    if e.payload.forward_reference then some (ut, en)
    else
      match convert (e.payload.fields - 0x1000) with
      | none => none
      | some f => some (dictInsert ut e.name (builtAggValue "struct" e.payload f), en)
  else if e.leaf = .LF_UNION then
    if e.payload.forward_reference then some (ut, en)
    else
      match convert (e.payload.fields - 0x1000) with
      | none => none
      | some f => some (dictInsert ut e.name (builtAggValue "union" e.payload f), en)
  else if e.leaf = .LF_ENUM then
    if e.payload.forward_reference then some (ut, en)
    else
      match procEnum e.payload with
      | none => none
      | some v => some (ut, dictInsert en e.name v)
  else some (ut, en)

/-- The full loop of `process_types` over `self.types` in parse order
(mspdb.py:400-427). -/
def process_types_pass (convert : Nat → Option Value) (procEnum : TypePayload → Option Value) :
    List TypeEntry → List (Option String × Value) → List (Option String × Value) →
    Option (List (Option String × Value) × List (Option String × Value))
  | [], ut, en => some (ut, en)
  | e :: rest, ut, en =>
    match process_step convert procEnum e ut en with
    | none => none
    | some (ut2, en2) => process_types_pass convert procEnum rest ut2 en2

/-- Monadic map over the values of an association list, as the dict branch of
`replace_forward_references` rewrites `self.user_types` value by value. -/
def mapValsM {K V W : Type} (f : V → Option W) : List (K × V) → Option (List (K × W))
  | [] => some []
  | (k, v) :: rest =>
    match f v, mapValsM f rest with
    | some w, some rest2 => some ((k, w) :: rest2)
    | _, _ => none

/-- `PdbReader.process_types` (mspdb.py:393-430): reset the output dicts, run
the loop over `self.types`, then re-run `self.user_types` through
`replace_forward_references` (whose top-level dict case maps the values in
place).  Returns the final `(user_types, enumerations)`. -/
def process_types (convert : Nat → Option Value) (procEnum : TypePayload → Option Value)
    (types : List TypeEntry) (type_references : List (String × Nat)) (fuel : Nat) :
    Option (List (Option String × Value) × List (Option String × Value)) :=
  match process_types_pass convert procEnum types [] [] with
  | none => none
  | some (ut, en) =>
    match mapValsM (replace_forward_references types type_references fuel) ut with
    | none => none
    | some ut2 => some (ut2, en)

theorem dictLookup_insert_self {K V : Type} [DecidableEq K] :
    ∀ (d : List (K × V)) (k : K) (v : V), dictLookup (dictInsert d k v) k = some v
  | [], k, v => by simp [dictInsert, dictLookup]
  | (k0, v0) :: rest, k, v => by
    by_cases h : k0 = k
    · simp [dictInsert, dictLookup, h]
    · simp only [dictInsert, if_neg h, dictLookup]
      exact dictLookup_insert_self rest k v

theorem dictLookup_insert_ne {K V : Type} [DecidableEq K] :
    ∀ (d : List (K × V)) (k2 k : K) (v : V), k2 ≠ k →
      dictLookup (dictInsert d k2 v) k = dictLookup d k
  | [], k2, k, v, h => by simp [dictInsert, dictLookup, h]
  | (k0, v0) :: rest, k2, k, v, h => by
    by_cases h0 : k0 = k2
    · simp only [dictInsert, if_pos h0, dictLookup]
      rw [if_neg (by rw [h0]; exact h), if_neg (by rw [h0]; exact h)]
    · simp only [dictInsert, if_neg h0, dictLookup]
      by_cases h1 : k0 = k
      · rw [if_pos h1, if_pos h1]
      · rw [if_neg h1, if_neg h1]
        exact dictLookup_insert_ne rest k2 k v h

theorem countKey_insert_self {K V : Type} [DecidableEq K] :
    ∀ (d : List (K × V)) (k : K) (v : V), countKey (dictInsert d k v) k = max (countKey d k) 1
  | [], k, v => by simp [dictInsert, countKey]
  | (k0, v0) :: rest, k, v => by
    by_cases h : k0 = k
    · simp only [dictInsert, if_pos h, countKey, if_pos h]
      omega
    · simp only [dictInsert, if_neg h, countKey, if_neg h]
      rw [countKey_insert_self rest k v]
      omega

theorem countKey_insert_ne {K V : Type} [DecidableEq K] :
    ∀ (d : List (K × V)) (k2 k : K) (v : V), k2 ≠ k →
      countKey (dictInsert d k2 v) k = countKey d k
  | [], k2, k, v, h => by simp [dictInsert, countKey, h]
  | (k0, v0) :: rest, k2, k, v, h => by
    by_cases h0 : k0 = k2
    · simp only [dictInsert, if_pos h0, countKey]
    · simp only [dictInsert, if_neg h0, countKey]
      rw [countKey_insert_ne rest k2 k v h]

theorem mapValsM_countKey {K V W : Type} [DecidableEq K] (f : V → Option W) :
    ∀ (d : List (K × V)) (m : List (K × W)), mapValsM f d = some m →
      ∀ k, countKey m k = countKey d k
  | [], m, hm, k => by
    simp [mapValsM] at hm
    subst hm
    rfl
  | (k0, v0) :: rest, m, hm, k => by
    simp only [mapValsM] at hm
    cases hf : f v0 with
    | none => rw [hf] at hm; cases hm
    | some w =>
      rw [hf] at hm
      cases hrest : mapValsM f rest with
      | none => rw [hrest] at hm; cases hm
      | some rest2 =>
        rw [hrest] at hm
        cases hm
        simp only [countKey]
        rw [mapValsM_countKey f rest rest2 hrest k]

theorem mapValsM_lookup_some {K V W : Type} [DecidableEq K] (f : V → Option W) :
    ∀ (d : List (K × V)) (m : List (K × W)), mapValsM f d = some m →
      ∀ k v, dictLookup d k = some v → ∃ w, f v = some w ∧ dictLookup m k = some w
  | [], m, hm, k, v, hl => by
    simp [dictLookup] at hl
  | (k0, v0) :: rest, m, hm, k, v, hl => by
    simp only [mapValsM] at hm
    cases hf : f v0 with
    | none => rw [hf] at hm; cases hm
    | some w =>
      rw [hf] at hm
      cases hrest : mapValsM f rest with
      | none => rw [hrest] at hm; cases hm
      | some rest2 =>
        rw [hrest] at hm
        cases hm
        simp only [dictLookup] at hl ⊢
        by_cases h0 : k0 = k
        · rw [if_pos h0] at hl ⊢
          cases hl
          exact ⟨w, hf, rfl⟩
        · rw [if_neg h0] at hl ⊢
          exact mapValsM_lookup_some f rest rest2 hrest k v hl

theorem process_step_preserves (convert : Nat → Option Value)
    (procEnum : TypePayload → Option Value) (e : TypeEntry)
    (ut en : List (Option String × Value)) (key : Option String) (out)
    (hnot : ¬ (aggLeafP e.leaf ∧ e.name = key ∧ e.payload.forward_reference = false))
    (hstep : process_step convert procEnum e ut en = some out) :
    dictLookup out.1 key = dictLookup ut key ∧ countKey out.1 key = countKey ut key := by
  unfold process_step at hstep
  by_cases hs : e.leaf ∈ structLeaves
  · rw [if_pos hs] at hstep
    by_cases hf : e.payload.forward_reference
    · rw [if_pos hf] at hstep
      cases hstep
      exact ⟨rfl, rfl⟩
    · rw [if_neg hf] at hstep
      have hname : e.name ≠ key := by
        intro hk
        exact hnot ⟨Or.inl hs, hk, by simpa using hf⟩
      cases hc : convert (e.payload.fields - 0x1000) with
      | none => rw [hc] at hstep; cases hstep
      | some f =>
        rw [hc] at hstep
        cases hstep
        exact ⟨dictLookup_insert_ne ut e.name key _ hname,
          countKey_insert_ne ut e.name key _ hname⟩
  · rw [if_neg hs] at hstep
    by_cases hu : e.leaf = .LF_UNION
    · rw [if_pos hu] at hstep
      by_cases hf : e.payload.forward_reference
      · rw [if_pos hf] at hstep
        cases hstep
        exact ⟨rfl, rfl⟩
      · rw [if_neg hf] at hstep
        have hname : e.name ≠ key := by
          intro hk
          exact hnot ⟨Or.inr hu, hk, by simpa using hf⟩
        cases hc : convert (e.payload.fields - 0x1000) with
        | none => rw [hc] at hstep; cases hstep
        | some f =>
          rw [hc] at hstep
          cases hstep
          exact ⟨dictLookup_insert_ne ut e.name key _ hname,
            countKey_insert_ne ut e.name key _ hname⟩
    · rw [if_neg hu] at hstep
      by_cases he : e.leaf = .LF_ENUM
      · rw [if_pos he] at hstep
        by_cases hf : e.payload.forward_reference
        · rw [if_pos hf] at hstep
          cases hstep
          exact ⟨rfl, rfl⟩
        · rw [if_neg hf] at hstep
          cases hc : procEnum e.payload with
          | none => rw [hc] at hstep; cases hstep
          | some v =>
            rw [hc] at hstep
            cases hstep
            exact ⟨rfl, rfl⟩
      · rw [if_neg he] at hstep
        cases hstep
        exact ⟨rfl, rfl⟩

theorem process_step_insert (convert : Nat → Option Value)
    (procEnum : TypePayload → Option Value) (e : TypeEntry)
    (ut en : List (Option String × Value)) (out)
    (hagg : aggLeafP e.leaf) (hf : e.payload.forward_reference = false)
    (hstep : process_step convert procEnum e ut en = some out) :
    ∃ f, convert (e.payload.fields - 0x1000) = some f ∧
      out.1 = dictInsert ut e.name (builtAggValue (aggKind e.leaf) e.payload f) := by
  unfold process_step at hstep
  rcases hagg with hs | hu
  · rw [if_pos hs, if_neg (by rw [hf]; exact Bool.false_ne_true)] at hstep
    cases hc : convert (e.payload.fields - 0x1000) with
    | none => rw [hc] at hstep; cases hstep
    | some f =>
      rw [hc] at hstep
      cases hstep
      exact ⟨f, rfl, by simp [aggKind, hs]⟩
  · have hs : e.leaf ∉ structLeaves := by
      rw [hu]
      decide
    rw [if_neg hs, if_pos hu, if_neg (by rw [hf]; exact Bool.false_ne_true)] at hstep
    cases hc : convert (e.payload.fields - 0x1000) with
    | none => rw [hc] at hstep; cases hstep
    | some f =>
      rw [hc] at hstep
      cases hstep
      exact ⟨f, rfl, by simp [aggKind, hs]⟩

theorem process_pass_skip (convert : Nat → Option Value)
    (procEnum : TypePayload → Option Value) (key : Option String) :
    ∀ (rest : List TypeEntry) (ut en : List (Option String × Value)) (out),
      (∀ e ∈ rest, e.name = key → aggLeafP e.leaf → e.payload.forward_reference = true) →
      process_types_pass convert procEnum rest ut en = some out →
      dictLookup out.1 key = dictLookup ut key ∧ countKey out.1 key = countKey ut key
  | [], ut, en, out, _, hp => by
    simp only [process_types_pass] at hp
    cases hp
    exact ⟨rfl, rfl⟩
  | e :: rest, ut, en, out, hno, hp => by
    simp only [process_types_pass] at hp
    cases hstep : process_step convert procEnum e ut en with
    | none => rw [hstep] at hp; cases hp
    | some s2 =>
      obtain ⟨ut2, en2⟩ := s2
      rw [hstep] at hp
      have hnot : ¬ (aggLeafP e.leaf ∧ e.name = key ∧ e.payload.forward_reference = false) := by
        rintro ⟨ha, hk, hfr⟩
        have := hno e (by simp) hk ha
        rw [this] at hfr
        cases hfr
      have hpres := process_step_preserves convert procEnum e ut en key (ut2, en2) hnot hstep
      have ih := process_pass_skip convert procEnum key rest ut2 en2 out
        (fun e2 he2 => hno e2 (by simp [he2])) hp
      exact ⟨by rw [ih.1, hpres.1], by rw [ih.2, hpres.2]⟩

theorem process_pass_found (convert : Nat → Option Value)
    (procEnum : TypePayload → Option Value) :
    ∀ (pre : List TypeEntry) (ej : TypeEntry) (post : List TypeEntry)
      (ut en : List (Option String × Value)) (out),
      (∀ e ∈ pre, e.name = ej.name → aggLeafP e.leaf → e.payload.forward_reference = true) →
      (∀ e ∈ post, e.name = ej.name → aggLeafP e.leaf → e.payload.forward_reference = true) →
      aggLeafP ej.leaf → ej.payload.forward_reference = false →
      process_types_pass convert procEnum (pre ++ ej :: post) ut en = some out →
      ∃ f, convert (ej.payload.fields - 0x1000) = some f ∧
        dictLookup out.1 ej.name = some (builtAggValue (aggKind ej.leaf) ej.payload f) ∧
        countKey out.1 ej.name = max (countKey ut ej.name) 1
  | [], ej, post, ut, en, out, _, hpost, hagg, hfwd, hp => by
    simp only [List.nil_append, process_types_pass] at hp
    cases hstep : process_step convert procEnum ej ut en with
    | none => rw [hstep] at hp; cases hp
    | some s2 =>
      obtain ⟨ut2, en2⟩ := s2
      rw [hstep] at hp
      obtain ⟨f, hc, hut2⟩ :=
        process_step_insert convert procEnum ej ut en (ut2, en2) hagg hfwd hstep
      have hskip := process_pass_skip convert procEnum ej.name post ut2 en2 out hpost hp
      refine ⟨f, hc, ?_, ?_⟩
      · rw [hskip.1,
          show ut2 = dictInsert ut ej.name (builtAggValue (aggKind ej.leaf) ej.payload f)
            from hut2]
        exact dictLookup_insert_self ut ej.name _
      · rw [hskip.2,
          show ut2 = dictInsert ut ej.name (builtAggValue (aggKind ej.leaf) ej.payload f)
            from hut2]
        exact countKey_insert_self ut ej.name _
  | e :: pre, ej, post, ut, en, out, hpre, hpost, hagg, hfwd, hp => by
    simp only [List.cons_append, process_types_pass] at hp
    cases hstep : process_step convert procEnum e ut en with
    | none => rw [hstep] at hp; cases hp
    | some s2 =>
      obtain ⟨ut2, en2⟩ := s2
      rw [hstep] at hp
      have hnot : ¬ (aggLeafP e.leaf ∧ e.name = ej.name ∧
          e.payload.forward_reference = false) := by
        rintro ⟨ha, hk, hfr⟩
        have := hpre e (by simp) hk ha
        rw [this] at hfr
        cases hfr
      have hpres := process_step_preserves convert procEnum e ut en ej.name (ut2, en2) hnot hstep
      obtain ⟨f, hc, h1, h2⟩ := process_pass_found convert procEnum pre ej post ut2 en2 out
        (fun e2 he2 => hpre e2 (by simp [he2])) hpost hagg hfwd hp
      exact ⟨f, hc, h1, by rw [h2, hpres.2]⟩

/-- C6: for every types table containing a forward-reference aggregate record
and exactly one non-forward aggregate record `ej` with the same name `n`
(presented as the decomposition `pre ++ ej :: post`, with every other
aggregate named `n` flagged `forward_reference`), the emitted `user_types`
map contains exactly one entry for `n` (`countKey = 1`) and that entry is
built from the non-forward record's definition: the `{kind, size, fields}`
dict of `ej` as rewritten by `replace_forward_references`.  Forward-flagged
records never produce a `user_types` entry. -/
theorem process_types_c6_unique_nonforward (convert : Nat → Option Value)
    (procEnum : TypePayload → Option Value) (pre post : List TypeEntry) (ej : TypeEntry)
    (tr : List (String × Nat)) (fuel : Nat) (n : String)
    (m en2 : List (Option String × Value))
    (hname : ej.name = some n)
    (hagg : aggLeafP ej.leaf)
    (hfwd : ej.payload.forward_reference = false)
    (hpre : ∀ e ∈ pre, e.name = some n → aggLeafP e.leaf → e.payload.forward_reference = true)
    (hpost : ∀ e ∈ post, e.name = some n → aggLeafP e.leaf → e.payload.forward_reference = true)
    (hboth : ∃ e ∈ pre ++ post, e.name = some n ∧ aggLeafP e.leaf ∧
      e.payload.forward_reference = true)
    (hm : process_types convert procEnum (pre ++ ej :: post) tr fuel = some (m, en2)) :
    ∃ f w, convert (ej.payload.fields - 0x1000) = some f ∧
      replace_forward_references (pre ++ ej :: post) tr fuel
        (builtAggValue (aggKind ej.leaf) ej.payload f) = some w ∧
      dictLookup m (some n) = some w ∧ countKey m (some n) = 1 := by
  unfold process_types at hm
  cases hpass : process_types_pass convert procEnum (pre ++ ej :: post) [] [] with
  | none => rw [hpass] at hm; cases hm
  | some s =>
    obtain ⟨ut, en⟩ := s
    rw [hpass] at hm
    have hm2 : (match mapValsM (replace_forward_references (pre ++ ej :: post) tr fuel) ut with
      | none => none
      | some ut2 => some (ut2, en)) = some (m, en2) := hm
    cases hmv : mapValsM (replace_forward_references (pre ++ ej :: post) tr fuel) ut with
    | none => rw [hmv] at hm2; cases hm2
    | some ut2 =>
      rw [hmv] at hm2
      cases hm2
      obtain ⟨f, hc, hl, hcnt⟩ := process_pass_found convert procEnum pre ej post [] [] (ut, en2)
        (fun e he hk ha => hpre e he (by rw [hname] at hk; exact hk) ha)
        (fun e he hk ha => hpost e he (by rw [hname] at hk; exact hk) ha)
        hagg hfwd hpass
      obtain ⟨w, hw, hlw⟩ :=
        mapValsM_lookup_some (replace_forward_references (pre ++ ej :: post) tr fuel)
          ut m hmv ej.name _ hl
      refine ⟨f, w, hc, hw, ?_, ?_⟩
      · rw [← hname]
        exact hlw
      · rw [← hname]
        rw [mapValsM_countKey (replace_forward_references (pre ++ ej :: post) tr fuel)
          ut m hmv ej.name]
        rw [show countKey ut ej.name =
          max (countKey ([] : List (Option String × Value)) ej.name) 1 from hcnt]
        rfl

/-- Witness for `process_types_c6_unique_nonforward`: a forward `LF_STRUCTURE`
named `FOO` followed by its non-forward definition of size `16`; the emitted
`user_types` holds exactly the entry built from the non-forward record. -/
theorem process_types_c6_witness :
    ∃ f w, (some (Value.vint 0) : Option Value) = some f ∧
      replace_forward_references
        [⟨.LF_STRUCTURE, some "FOO", aggPayload true 0 0x1000⟩,
         ⟨.LF_STRUCTURE, some "FOO", aggPayload false 16 0x1000⟩]
        [("FOO", 1)] 1
        (builtAggValue "struct" (aggPayload false 16 0x1000) f) = some w ∧
      dictLookup
        [(some "FOO", Value.vdict [("kind", Value.vstr "struct"), ("size", Value.vint 16),
          ("fields", Value.vint 0)])] (some "FOO") = some w ∧
      countKey
        [(some "FOO", Value.vdict [("kind", Value.vstr "struct"), ("size", Value.vint 16),
          ("fields", Value.vint 0)])] (some "FOO") = 1 := by
  exact process_types_c6_unique_nonforward
    (fun _ => some (Value.vint 0)) (fun _ => some Value.vnone)
    [⟨.LF_STRUCTURE, some "FOO", aggPayload true 0 0x1000⟩] []
    ⟨.LF_STRUCTURE, some "FOO", aggPayload false 16 0x1000⟩
    [("FOO", 1)] 1 "FOO"
    [(some "FOO", Value.vdict [("kind", Value.vstr "struct"), ("size", Value.vint 16),
      ("fields", Value.vint 0)])]
    []
    rfl (Or.inl (by decide)) rfl
    (by intro e he h1 h2
        simp at he
        subst he
        rfl)
    (by intro e he h1 h2
        simp at he)
    ⟨⟨.LF_STRUCTURE, some "FOO", aggPayload true 0 0x1000⟩, by simp, rfl,
      Or.inl (by decide), rfl⟩
    rfl
